import Mathlib

/-!
Verification development for the Solarium 16-bit CPU emulator and its
surrounding tools (`scpu` repository).

The CPU executor is embedded from `libscpu/src/cpu/processor.rs`.  The
supporting modules of that crate (`common`, `memory`, `cpu/registers`) are not
part of the published sources, so their data model is modelled from the
specification: `MemoryWord` is an unsigned 16-bit value with a two's-complement
signed view, the register file is sixteen registers indexed 0..15 with index 0
the program counter and index 1 the stack-pointer offset (`Register::GP(i)`
denotes the register at index `i`, `Register::from_index` the identity on
0..15), and the memory map is an ordered collection of non-overlapping
segments, each read-only or read-write, dispatching by address range.

Machine integers are modelled as `Nat`/`Int` with explicit reductions modulo
2^16 at the points where the Rust code truncates (`as MemoryWord`, `as u16`
casts, and release-mode wrapping of unsigned `+`/`-`/`<<`).  Signed 16-bit
division and remainder by constructing `i16::MIN / -1` overflow in Rust in
every build profile and abort the process; this outcome is modelled by a
distinct `panicked` result that is neither success nor a returned error.
-/

/-- Error taxonomy of the core, modelled from the spec (§7) together with the
payload-carrying variants visible in the published sources
(`InvalidMemoryAccess`/`InvalidMemoryWrite` carrying the address,
`InvalidInstruction` carrying the instruction word). -/
inductive SolariumError where
  | InvalidMemoryAccess (addr : Nat)
  | InvalidMemoryWrite (addr : Nat)
  | StackOverflow
  | DivideByZero
  | ModByZero
  | InterruptsNotSupported
  | InvalidInstruction (inst : Nat)
deriving DecidableEq, Repr

/-- Modelled from the spec: a memory segment owns a contiguous address range
`[base, base+len)` and is either read-only or read-write (§3, §4.3). -/
structure MemRegion where
  base : Nat
  len : Nat
  readonly : Bool
deriving DecidableEq, Repr

/-- Modelled from the spec: the memory map is an ordered collection of
non-overlapping segments; `contents` is the backing store of words. -/
structure MemoryMap where
  regions : List MemRegion
  contents : Nat → Nat

/-- Dispatch: the first segment whose range contains the address. -/
def findRegion (rs : List MemRegion) (a : Nat) : Option MemRegion :=
  rs.find? (fun r => decide (r.base ≤ a) && decide (a < r.base + r.len))

/-- The address is served by some segment. -/
def mappedAt (m : MemoryMap) (a : Nat) : Prop :=
  (findRegion m.regions a).isSome = true

/-- The address is served by a read-write segment. -/
def writableAt (m : MemoryMap) (a : Nat) : Prop :=
  ∃ rg, findRegion m.regions a = some rg ∧ rg.readonly = false

instance (m : MemoryMap) (a : Nat) : Decidable (mappedAt m a) :=
  inferInstanceAs (Decidable (_ = true))

instance (m : MemoryMap) (a : Nat) : Decidable (writableAt m a) :=
  decidable_of_iff ((findRegion m.regions a).any (fun rg => !rg.readonly) = true) (by
    cases h : findRegion m.regions a with
    | none => simp [writableAt, h]
    | some rg => simp [writableAt, h])

/-- Modelled from the spec: `get(addr)` dispatches to the segment containing
`addr` and fails with *invalid-access* when none does (§4.3). -/
def mmGet (m : MemoryMap) (a : Nat) : Except SolariumError Nat :=
  match findRegion m.regions a with
  | some _ => .ok (m.contents a)
  | none => .error (.InvalidMemoryAccess a)

/-- Modelled from the spec: `set(addr, word)` dispatches to the segment
containing `addr`, failing with *invalid-write* for read-only or unmapped
addresses (§4.3, §7). -/
def mmSet (m : MemoryMap) (a v : Nat) : Except SolariumError MemoryMap :=
  match findRegion m.regions a with
  | some rg =>
      if rg.readonly then .error (.InvalidMemoryWrite a)
      else .ok { regions := m.regions, contents := Function.update m.contents a v }
  | none => .error (.InvalidMemoryWrite a)

/-- Two's-complement signed view of an 8-bit value (`as i8`). -/
def toSigned8 (v : Nat) : Int :=
  if v < 128 then (v : Int) else (v : Int) - 256

/-- Two's-complement signed view of a 16-bit value (`as i16`,
`MemoryWordSigned`). -/
def toSigned16 (v : Nat) : Int :=
  if v < 32768 then (v : Int) else (v : Int) - 65536

/-- Reinterpret an integer as an unsigned 16-bit word (`as MemoryWord`). -/
def toWord (i : Int) : Nat :=
  (i % 65536).toNat

/-- Defines the reset vector location (`VECTOR_RESET`). -/
def VECTOR_RESET : Nat := 0x0

/-- Define the stack pointer offset (`STACK_POINTER_OFFSET`). -/
def STACK_POINTER_OFFSET : Nat := 0x800

/-- Define the allowed stack size (`STACK_POINTER_MAX_SIZE`). -/
def STACK_POINTER_MAX_SIZE : Nat := 0x800

/-- The Solarium CPU state: memory map, register file (sixteen registers as a
function from the index; modelled from the spec with index 0 = PC and
index 1 = SP), and the interrupt-enable flag. -/
structure SolariumCPU where
  memory_map : MemoryMap
  registers : Nat → Nat
  allow_interrupts : Bool

/-- `RegisterManager::set` on the register at the given index. -/
def setReg (c : SolariumCPU) (i v : Nat) : SolariumCPU :=
  { c with registers := Function.update c.registers i v }

/-- `SolariumCPU::soft_reset`: zero every register, then set the program
counter to the reset vector. -/
def softReset (c : SolariumCPU) : SolariumCPU :=
  setReg { c with registers := fun _ => 0 } 0 VECTOR_RESET

/-- `SolariumCPU::increment_pc`: add the (signed) increment to the current
program counter, truncating to a 16-bit word. -/
def incrementPC (c : SolariumCPU) (pc_incr : Int) : SolariumCPU :=
  setReg c 0 (toWord ((c.registers 0 : Int) + pc_incr))

/-- `SolariumCPU::push_sp`: increment SP (release-mode wrapping `+ 1`), fail
with stack-overflow when the new offset exceeds
`STACK_POINTER_OFFSET + STACK_POINTER_MAX_SIZE`, otherwise store the value at
`STACK_POINTER_OFFSET + new_sp - 1`.  The error case carries the state as
mutated so far (the SP update precedes the memory write in the source). -/
def push_sp (c : SolariumCPU) (v : Nat) : Option SolariumError × SolariumCPU :=
  let new_sp := (c.registers 1 + 1) % 65536
  if STACK_POINTER_OFFSET + STACK_POINTER_MAX_SIZE < new_sp then
    (some .StackOverflow, c)
  else
    let c1 := setReg c 1 new_sp
    match mmSet c1.memory_map (STACK_POINTER_OFFSET + new_sp - 1) v with
    | .ok m => (none, { c1 with memory_map := m })
    | .error e => (some e, c1)

/-- `SolariumCPU::peek_sp`: read the word under the top of the stack; SP = 0 is
a stack-overflow error. -/
def peek_sp (c : SolariumCPU) : Except SolariumError Nat :=
  if c.registers 1 = 0 then .error .StackOverflow
  else mmGet c.memory_map (STACK_POINTER_OFFSET + c.registers 1 - 1)

/-- `SolariumCPU::pop_sp`: peek, then decrement SP. -/
def pop_sp (c : SolariumCPU) : Except SolariumError (Nat × SolariumCPU) :=
  match peek_sp c with
  | .error e => .error e
  | .ok v => .ok (v, setReg c 1 (c.registers 1 - 1))

/-- The `call` loop: push the value of each listed register in order, stopping
at (and surfacing) the first error together with the partially updated
state. -/
def pushRegs (c : SolariumCPU) : List Nat → Option SolariumError × SolariumCPU
  | [] => (none, c)
  | i :: rest =>
      match push_sp c (c.registers i) with
      | (none, c') => pushRegs c' rest
      | (some e, c') => (some e, c')

/-- The `ret` loop: for each listed loop index `i`, pop a word and store it in
register `15 - i`, stopping at (and surfacing) the first error together with
the partially updated state. -/
def popRegs (c : SolariumCPU) : List Nat → Option SolariumError × SolariumCPU
  | [] => (none, c)
  | i :: rest =>
      match pop_sp c with
      | .ok (v, c') => popRegs (setReg c' (15 - i) v) rest
      | .error e => (some e, c)

/-- Result of executing one instruction body before the final PC increment:
either proceed with a PC increment, surface a typed error, or abort the
process (a Rust arithmetic-overflow or assertion failure). -/
inductive ArmOut where
  | go (pc_incr : Int) (c : SolariumCPU)
  | fault (e : SolariumError) (c : SolariumCPU)
  | panicked (c : SolariumCPU)

/-- Outcome of `SolariumCPU::step`. -/
inductive StepOutcome where
  | ok
  | fault (e : SolariumError)
  | panicked
deriving DecidableEq, Repr

/-- The two-register forms of opcode 0 (`arg0 /= 0`): jmpri, ld, sav, ldr,
savr, and the conditional jumps jz/jzr/jgz/jgzr; reg_a is the register at
index arg2 and reg_b the register at index arg1. -/
def armTwoReg (c : SolariumCPU) (pc inst arg0 arg1 arg2 : Nat) : ArmOut :=
  if arg0 = 1 then
    .go (toSigned8 (arg1 * 16 + arg2)) c
  else if arg0 = 2 then
    match mmGet c.memory_map (c.registers arg1) with
    | .error e => .fault e c
    | .ok v => .go 1 (setReg c arg2 v)
  else if arg0 = 3 then
    match mmSet c.memory_map (c.registers arg2) (c.registers arg1) with
    | .error e => .fault e c
    | .ok m => .go 1 { c with memory_map := m }
  else if arg0 = 4 then
    match mmSet c.memory_map (c.registers arg2) ((pc + c.registers arg1) % 65536) with
    | .error e => .fault e c
    | .ok m => .go 1 { c with memory_map := m }
  else if arg0 = 5 then
    match mmSet c.memory_map ((pc + c.registers arg2) % 65536) (c.registers arg1) with
    | .error e => .fault e c
    | .ok m => .go 1 { c with memory_map := m }
  else if arg0 ≤ 9 then
    -- jz (6), jzr (7), jgz (8), jgzr (9); condition cmp on reg_b = arg1
    if ((arg0 = 6 ∨ arg0 = 7) ∧ toSigned16 (c.registers arg1) = 0) ∨
        ((arg0 = 8 ∨ arg0 = 9) ∧ 0 < toSigned16 (c.registers arg1)) then
      if arg0 = 7 ∨ arg0 = 9 then
        .go (toSigned16 (c.registers arg2)) c
      else
        -- absolute form: assign reg_a into PC (pc_incr stays 1)
        .go 1 (setReg c 0 (c.registers arg2))
    else
      .go 1 c
  else
    .fault (.InvalidInstruction inst) c

/-- The one-register forms of opcode 0 (`arg0 = 0`, `arg1 /= 0`): jmp, jmpr,
push, popr, call, int, on the register at index arg2. -/
def armOneReg (c : SolariumCPU) (inst arg1 arg2 : Nat) : ArmOut :=
  if arg1 = 1 then
    .go 0 (setReg c 0 (c.registers arg2))
  else if arg1 = 2 then
    .go (toSigned16 (c.registers arg2)) c
  else if arg1 = 3 then
    match push_sp c (c.registers arg2) with
    | (none, c') => .go 1 c'
    | (some e, c') => .fault e c'
  else if arg1 = 4 then
    match pop_sp c with
    | .ok (v, c') => .go 1 (setReg c' arg2 v)
    | .error e => .fault e c
  else if arg1 = 5 then
    match pushRegs c (List.range 16) with
    | (none, c') => .go 0 (setReg c' 0 (c'.registers arg2))
    | (some e, c') => .fault e c'
  else if arg1 = 6 then
    .fault .InterruptsNotSupported c
  else
    .fault (.InvalidInstruction inst) c

/-- The zero-argument forms of opcode 0 (`arg0 = arg1 = 0`), keyed by arg2:
noop, inton, intoff, soft reset, pop, ret. -/
def armZeroArg (c : SolariumCPU) (inst arg2 : Nat) : ArmOut :=
  if arg2 = 0 then
    .go 1 c
  else if arg2 = 1 then
    .go 1 { c with allow_interrupts := true }
  else if arg2 = 2 then
    .go 1 { c with allow_interrupts := false }
  else if arg2 = 3 then
    .go 0 (softReset c)
  else if arg2 = 4 then
    match pop_sp c with
    | .ok (_, c') => .go 1 c'
    | .error e => .fault e c
  else if arg2 = 5 then
    match popRegs c (List.range 16) with
    | (none, c') => .go 1 c'
    | (some e, c') => .fault e c'
  else
    .fault (.InvalidInstruction inst) c

/-- The `ldir` instruction (opcode 3): load the word at PC plus the signed
8-bit immediate; the source asserts that this address is nonnegative (an
assertion failure aborts). -/
def armLdir (c : SolariumCPU) (pc arg0 arg1 arg2 : Nat) : ArmOut :=
  if (pc : Int) + toSigned8 (arg0 * 16 + arg1) < 0 then .panicked c
  else
    match mmGet c.memory_map ((pc : Int) + toSigned8 (arg0 * 16 + arg1)).toNat with
    | .error e => .fault e c
    | .ok v => .go 1 (setReg c arg2 v)

/-- The arithmetic family (opcodes 4..13): val_a from register arg1, val_b
from register arg0, destination arg2.  add/sub/shl wrap modulo 2^16
(release-mode semantics); mul/div/mod operate on the signed 16-bit view, and
div/mod abort the process on the overflowing pair -32768 / -1 (a Rust
overflow panic in every build profile) after rejecting a zero divisor. -/
def armArith (c : SolariumCPU) (inst opcode arg0 arg1 arg2 : Nat) : ArmOut :=
  if opcode = 4 then
    .go 1 (setReg c arg2 ((c.registers arg1 + c.registers arg0) % 65536))
  else if opcode = 5 then
    .go 1 (setReg c arg2 (toWord ((c.registers arg1 : Int) - (c.registers arg0 : Int))))
  else if opcode = 6 then
    .go 1 (setReg c arg2 (toWord (toSigned16 (c.registers arg1) * toSigned16 (c.registers arg0))))
  else if opcode = 7 then
    if c.registers arg0 = 0 then .fault .DivideByZero c
    else if toSigned16 (c.registers arg1) = -32768 ∧ toSigned16 (c.registers arg0) = -1 then
      .panicked c
    else
      .go 1 (setReg c arg2
        (toWord (Int.tdiv (toSigned16 (c.registers arg1)) (toSigned16 (c.registers arg0)))))
  else if opcode = 8 then
    if c.registers arg0 = 0 then .fault .ModByZero c
    else if toSigned16 (c.registers arg1) = -32768 ∧ toSigned16 (c.registers arg0) = -1 then
      .panicked c
    else
      .go 1 (setReg c arg2
        (toWord (Int.tmod (toSigned16 (c.registers arg1)) (toSigned16 (c.registers arg0)))))
  else if opcode = 9 then
    .go 1 (setReg c arg2 (c.registers arg1 &&& c.registers arg0))
  else if opcode = 10 then
    .go 1 (setReg c arg2 (c.registers arg1 ||| c.registers arg0))
  else if opcode = 11 then
    .go 1 (setReg c arg2 (c.registers arg1 ^^^ c.registers arg0))
  else if opcode = 12 then
    .go 1 (setReg c arg2 ((c.registers arg1 <<< (c.registers arg0 % 16)) % 65536))
  else
    .go 1 (setReg c arg2 (c.registers arg1 >>> (c.registers arg0 % 16)))

/-- The dispatch of `SolariumCPU::step` over the four decoded nibbles,
mirroring the source's opcode chain.  `pc` is the program counter at fetch
time; `inst` the fetched word (carried for the invalid-instruction payload);
`opcode`, `arg0`, `arg1`, `arg2` its nibbles from high to low. -/
def stepDispatch (c : SolariumCPU) (pc inst opcode arg0 arg1 arg2 : Nat) : ArmOut :=
  if opcode = 0 then
    if arg0 ≠ 0 then armTwoReg c pc inst arg0 arg1 arg2
    else if arg1 ≠ 0 then armOneReg c inst arg1 arg2
    else armZeroArg c inst arg2
  else if opcode = 1 then
    .go 1 (setReg c arg2 (toWord (toSigned8 (arg0 * 16 + arg1))))
  else if opcode = 2 then
    .go 1 (setReg c arg2 (arg0 * 16 + arg1))
  else if opcode = 3 then
    armLdir c pc arg0 arg1 arg2
  else if opcode ≤ 13 then
    armArith c inst opcode arg0 arg1 arg2
  else
    -- opcodes 14 and 15 fall through the source's dispatch chain untouched
    .go 1 c

/-- The body of `SolariumCPU::step` after the fetch: decode the four nibbles
from the instruction word and dispatch. -/
def stepArm (c : SolariumCPU) (pc inst : Nat) : ArmOut :=
  stepDispatch c pc inst (inst / 4096 % 16) (inst / 256 % 16) (inst / 16 % 16) (inst % 16)

/-- `SolariumCPU::step`: fetch the word at PC (returning the fetch error
unchanged-state on failure), execute the instruction body, then apply the PC
increment.  The source's re-store of the just-fetched PC into the PC register
is a no-op and is not repeated here. -/
def step (c : SolariumCPU) : StepOutcome × SolariumCPU :=
  match mmGet c.memory_map (c.registers 0) with
  | .error e => (.fault e, c)
  | .ok inst =>
      match stepArm c (c.registers 0) inst with
      | .go pc_incr c' => (.ok, incrementPC c' pc_incr)
      | .fault e c' => (.fault e, c')
      | .panicked c' => (.panicked, c')

/-- Store a list of words at consecutive addresses (proof-side description of
the cells written by a run of pushes). -/
def writeSeq (m : Nat → Nat) (a : Nat) : List Nat → (Nat → Nat)
  | [] => m
  | v :: vs => writeSeq (Function.update m a v) (a + 1) vs

/-- Register-file effect of a run of `ret` pops whose loop indices are the
given list, starting with stack pointer `b` plus the list length
(proof-side description): each pop decrements SP and stores the word read
under the old top into register `15 - i`. -/
def retWrites (m : Nat → Nat) (b : Nat) (regs : Nat → Nat) : List Nat → (Nat → Nat)
  | [] => regs
  | j :: rest =>
      retWrites m b
        (Function.update (Function.update regs 1 (b + rest.length)) (15 - j)
          (m (STACK_POINTER_OFFSET + b + rest.length)))
        rest

/-- The serial I/O device state, embedded from
`libsproc/src/devices/serial_io.rs`: a base address plus input and output
character queues (characters as their numeric codes, front of the queue
first). -/
structure SerialInputOutputDevice where
  base_address : Nat
  input_queue : List Nat
  output_queue : List Nat
deriving DecidableEq, Repr

/-- `SerialInputOutputDevice`'s 4-word window test (`within`). -/
def serialWithin (d : SerialInputOutputDevice) (ind : Nat) : Prop :=
  d.base_address ≤ ind ∧ ind < d.base_address + 4

instance (d : SerialInputOutputDevice) (ind : Nat) : Decidable (serialWithin d ind) :=
  inferInstanceAs (Decidable (_ ∧ _))

/-- `SerialInputOutputDevice::get`: offset 0 is the input count, offset 1 pops
one input character (0 when empty), offset 2 is the output count, offset 3
reads 0; the result carries the (possibly dequeued) device state.  Counts and
the popped character-code are truncated to 16 bits (`as u16`). -/
def serialGet (d : SerialInputOutputDevice) (ind : Nat) :
    Except SolariumError (Nat × SerialInputOutputDevice) :=
  if ¬serialWithin d ind then .error (.InvalidMemoryAccess ind)
  else
    let offset := ind - d.base_address
    if offset = 0 then .ok (d.input_queue.length % 65536, d)
    else if offset = 1 then
      match d.input_queue with
      | [] => .ok (0, d)
      | v :: rest => .ok (v % 65536, { d with input_queue := rest })
    else if offset = 2 then .ok (d.output_queue.length % 65536, d)
    else if offset = 3 then .ok (0, d)
    else .error (.InvalidMemoryAccess ind)

/-- `SerialInputOutputDevice::set`: only offset 3 accepts a write, enqueueing
the low byte (`as u8`) of the written word; other offsets inside the window
fail with *invalid-write*. -/
def serialSet (d : SerialInputOutputDevice) (ind data : Nat) :
    Except SolariumError SerialInputOutputDevice :=
  if ¬serialWithin d ind then .error (.InvalidMemoryAccess ind)
  else
    let offset := ind - d.base_address
    if offset = 3 then .ok { d with output_queue := d.output_queue ++ [data % 256] }
    else .error (.InvalidMemoryWrite ind)

/-- The read-only memory segment, embedded from
`sproc/src/memory/segment_ro.rs`: a vector of words addressed by offset. -/
structure ReadOnlySegment where
  data : List Nat
deriving DecidableEq, Repr

/-- `ReadOnlySegment::get`: the word at the offset, *invalid-access* outside
the data. -/
def roGet (s : ReadOnlySegment) (offset : Nat) : Except SolariumError Nat :=
  if h : offset < s.data.length then .ok (s.data.get ⟨offset, h⟩)
  else .error (.InvalidMemoryAccess offset)

/-- `ReadOnlySegment::set`: always fails with *invalid-write*; the segment
state is returned unchanged alongside the error. -/
def roSet (s : ReadOnlySegment) (offset : Nat) (_v : Nat) :
    Except SolariumError Unit × ReadOnlySegment :=
  (.error (.InvalidMemoryWrite offset), s)

/-- `ReadOnlySegment::reset`: does nothing. -/
def roReset (s : ReadOnlySegment) : ReadOnlySegment :=
  s

/-- The raw-binary output encoding of `sda`'s front end (`sda/src/bin/sda.rs`,
`OutputType::Binary` arm): each word `v` becomes the two bytes
`(v & 0xF) as u8` and `((v & 0xF0) >> 8) as u8`, in that order. -/
def binaryBytes (ws : List Nat) : List Nat :=
  ws.flatMap fun v => [v &&& 0xF, (v &&& 0xF0) >>> 8]

/-- Pairwise little-endian decoding of a byte stream, following the spec's
words for the binary contract (low byte first, high byte second). -/
def decodeLE : List Nat → List Nat
  | lo :: hi :: rest => (lo + 256 * hi) :: decodeLE rest
  | _ => []

/-- A memory map with a single read-write segment covering `[0, 0x2000)`. -/
def flatRW (m : Nat → Nat) : MemoryMap :=
  { regions := [{ base := 0, len := 0x2000, readonly := false }], contents := m }

/-- A CPU about to execute `call r3` with the stack pointer at 0xFFC: the
fifth register push overflows, after four pushes have already happened. -/
def cexC1state : SolariumCPU :=
  { memory_map := flatRW fun a => if a = 0 then 0x0053 else 0
    registers := fun i => if i = 0 then 0 else if i = 1 then 0xFFC else 0x42
    allow_interrupts := true }

/-- A CPU about to execute `int` (which always fails). -/
def witC1state : SolariumCPU :=
  { memory_map := flatRW fun a => if a = 0 then 0x0060 else 0
    registers := fun i => if i = 0 then 0 else 0x21
    allow_interrupts := true }

/-- A CPU about to execute `push r3` with the stack-pointer offset already at
STACK_POINTER_MAX_SIZE = 0x800. -/
def cexC2state : SolariumCPU :=
  { memory_map := flatRW fun a => if a = 0 then 0x0033 else 0
    registers := fun i => if i = 0 then 0 else if i = 1 then 0x800 else 0x42
    allow_interrupts := true }

/-- A CPU about to execute a taken `jz` (absolute conditional jump): register 4
(the condition) holds 0 and register 3 (the target) holds 0x50. -/
def cexC3state : SolariumCPU :=
  { memory_map := flatRW fun a => if a = 0 then 0x0643 else 0
    registers := fun i => if i = 0 then 0 else if i = 3 then 0x50 else 0
    allow_interrupts := true }

/-- A CPU about to execute the reserved opcode 0xE (instruction word 0xE000). -/
def cexC4state : SolariumCPU :=
  { memory_map := flatRW fun a => if a = 0 then 0xE000 else 0
    registers := fun _ => 0
    allow_interrupts := true }

/-- A CPU about to execute `call r3` with target 0x50 holding `ret`. -/
def witC5state : SolariumCPU :=
  { memory_map := flatRW fun a => if a = 0 then 0x0053 else if a = 0x50 then 5 else 0
    registers := fun i => if i = 0 then 0 else if i = 1 then 0 else if i = 3 then 0x50 else 7
    allow_interrupts := true }

/-- A CPU about to execute `add r5, r3, r4` with r3 = 0xFFFF and r4 = 1. -/
def witC6addState : SolariumCPU :=
  { memory_map := flatRW fun a => if a = 0 then 0x4435 else 0
    registers := fun i => if i = 3 then 0xFFFF else if i = 4 then 1 else 0
    allow_interrupts := true }

/-- A CPU about to execute `sub r5, r3, r4` with r3 = 0 and r4 = 1. -/
def witC6subState : SolariumCPU :=
  { memory_map := flatRW fun a => if a = 0 then 0x5435 else 0
    registers := fun i => if i = 4 then 1 else 0
    allow_interrupts := true }

/-- A CPU about to execute `div r5, r3, r4` with dividend r3 = 0x8000 (i.e.
-32768) and divisor r4 = 0xFFFF (i.e. -1): the signed division overflows. -/
def cexC7state : SolariumCPU :=
  { memory_map := flatRW fun a => if a = 0 then 0x7435 else 0
    registers := fun i => if i = 3 then 0x8000 else if i = 4 then 0xFFFF else 0
    allow_interrupts := true }

/-- A CPU about to execute `div r5, r3, r4` with r3 = 6 and r4 = 0xFFFE (-2). -/
def witC7divState : SolariumCPU :=
  { memory_map := flatRW fun a => if a = 0 then 0x7435 else 0
    registers := fun i => if i = 3 then 6 else if i = 4 then 0xFFFE else 0
    allow_interrupts := true }

/-- A CPU about to execute `mod r5, r3, r4` with r3 = 7 and r4 = 3. -/
def witC7modState : SolariumCPU :=
  { memory_map := flatRW fun a => if a = 0 then 0x8435 else 0
    registers := fun i => if i = 3 then 7 else if i = 4 then 3 else 0
    allow_interrupts := true }

/-- A CPU about to execute `div r5, r3, r4` with divisor r4 = 0. -/
def witC7zeroState : SolariumCPU :=
  { memory_map := flatRW fun a => if a = 0 then 0x7435 else 0
    registers := fun i => if i = 3 then 6 else 0
    allow_interrupts := true }

/-- A serial device at base 0x1000 with two pending input characters and one
pending output character. -/
def witC8device : SerialInputOutputDevice :=
  { base_address := 0x1000, input_queue := [65, 66], output_queue := [67] }

/-! ## Helper lemmas -/

theorem mmGet_of_mapped {m : MemoryMap} {a : Nat} (h : mappedAt m a) :
    mmGet m a = .ok (m.contents a) := by
  unfold mmGet
  unfold mappedAt at h
  cases hf : findRegion m.regions a with
  | none => rw [hf] at h; simp at h
  | some rg => rfl

theorem mmSet_of_writable {m : MemoryMap} {a : Nat} (v : Nat) (h : writableAt m a) :
    mmSet m a v = .ok { regions := m.regions, contents := Function.update m.contents a v } := by
  obtain ⟨rg, hf, hro⟩ := h
  unfold mmSet
  rw [hf]
  simp [hro]

theorem writableAt.mapped {m : MemoryMap} {a : Nat} (h : writableAt m a) :
    mappedAt m a := by
  obtain ⟨rg, hf, _⟩ := h
  unfold mappedAt
  rw [hf]
  rfl

theorem writeSeq_outside {vs : List Nat} :
    ∀ {m : Nat → Nat} {a x : Nat}, (x < a ∨ a + vs.length ≤ x) →
      writeSeq m a vs x = m x := by
  induction vs with
  | nil => intro m a x _; rfl
  | cons v vs ih =>
      intro m a x hx
      simp only [List.length_cons] at hx
      show writeSeq (Function.update m a v) (a + 1) vs x = m x
      rw [ih (by omega)]
      rcases hx with hx | hx
      · rw [Function.update_noteq (by omega)]
      · rw [Function.update_noteq (by omega)]

theorem writeSeq_get {vs : List Nat} :
    ∀ {m : Nat → Nat} {a k : Nat}, k < vs.length →
      writeSeq m a vs (a + k) = vs.getD k 0 := by
  induction vs with
  | nil => intro m a k hk; simp at hk
  | cons v vs ih =>
      intro m a k hk
      match k with
      | 0 =>
          show writeSeq (Function.update m a v) (a + 1) vs a = _
          rw [writeSeq_outside (by omega)]
          simp
      | k + 1 =>
          show writeSeq (Function.update m a v) (a + 1) vs (a + (k + 1)) = vs.getD k 0
          have : a + (k + 1) = (a + 1) + k := by omega
          rw [this, ih (by simpa using hk)]

/-! ## Claim theorems -/

/-- C1 (counterexample).  `step()` can return an error with the CPU state
changed: from `cexC1state` (a `call r3` with SP = 0xFFC), `step` fails with
stack-overflow after four register pushes have already happened, leaving the
stack pointer at 0x1000 (it was 0xFFC) and the memory word at 0x17FE
overwritten with register 2's value 0x42 (it was 0). -/
theorem c1_counterexample :
    (step cexC1state).1 = StepOutcome.fault SolariumError.StackOverflow ∧
    cexC1state.registers 1 = 0xFFC ∧
    (step cexC1state).2.registers 1 = 0x1000 ∧
    cexC1state.memory_map.contents 0x17FE = 0 ∧
    (step cexC1state).2.memory_map.contents 0x17FE = 0x42 := by
  refine ⟨by decide, by decide, by decide, by decide, by decide⟩

/-- C2 (failing input).  With the stack-pointer offset already at
STACK_MAX = 0x800, `push r3` succeeds instead of failing with stack-overflow:
the check in `push_sp` compares the new offset against
`STACK_POINTER_OFFSET + STACK_POINTER_MAX_SIZE` = 0x1000 rather than against
the allowed size 0x800, so SP becomes 0x801 and the pushed word lands at
address 0x1000, one past the stack window `[0x800, 0x1000)`. -/
theorem c2_push_beyond_stack_max_succeeds :
    cexC2state.registers 1 = STACK_POINTER_MAX_SIZE ∧
    (step cexC2state).1 = StepOutcome.ok ∧
    (step cexC2state).2.registers 1 = 0x801 ∧
    (step cexC2state).2.memory_map.contents 0x1000 = 0x42 := by
  refine ⟨by decide, by decide, by decide, by decide⟩

/-- C3 (failing input).  A taken absolute conditional jump does not zero the
post-step PC increment: from `cexC3state` (`jz` with condition register 4 = 0
and target register 3 = 0x50), `step` succeeds but leaves PC = 0x51, one past
the assigned target 0x50, because the `jz`/`jgz` arm assigns PC without
setting `pc_incr` to 0 (unlike the `jmp`/`call`/`reset` arms). -/
theorem c3_taken_jz_lands_past_target :
    cexC3state.registers 3 = 0x50 ∧
    cexC3state.registers 4 = 0 ∧
    (step cexC3state).1 = StepOutcome.ok ∧
    (step cexC3state).2.registers 0 = 0x51 := by
  refine ⟨by decide, by decide, by decide, by decide⟩

/-- C4 (failing input).  The reserved top-level opcode 0xE is not rejected:
the instruction word 0xE000 falls through the source's dispatch chain (which
ends at `opcode <= 13` with no final else), so `step` returns success and
advances PC by 1 instead of returning the invalid-instruction error. -/
theorem c4_opcode_14_silently_ignored :
    (step cexC4state).1 = StepOutcome.ok ∧
    (step cexC4state).2.registers 0 = 1 := by
  refine ⟨by decide, by decide⟩

/-- C7 (counterexample).  `div` with the nonzero divisor 0xFFFF (signed -1)
and dividend 0x8000 (signed -32768) does not succeed: the signed quotient
32768 overflows `i16`, and Rust's division aborts the process (modelled by the
`panicked` outcome), so there is a nonzero divisor for which the instruction
neither succeeds nor returns an error. -/
theorem c7_counterexample :
    cexC7state.registers 4 = 0xFFFF ∧
    cexC7state.registers 4 ≠ 0 ∧
    (step cexC7state).1 = StepOutcome.panicked := by
  refine ⟨by decide, by decide, by decide⟩

/-- C9 (failing input).  The raw-binary output of `sda` does not emit the low
and high bytes of each word: for the word 0xBEEF it emits the bytes
`[0x0F, 0x00]` (the low nibble, then `(v & 0xF0) >> 8` which is always zero)
instead of `[0xEF, 0xBE]`, so pairwise little-endian decoding of the emitted
stream yields 0x000F and the encoding does not round-trip. -/
theorem c9_binary_encoding_broken :
    binaryBytes [0xBEEF] = [0x0F, 0x00] ∧
    decodeLE (binaryBytes [0xBEEF]) = [0x000F] ∧
    decodeLE (binaryBytes [0xBEEF]) ≠ [0xBEEF] := by
  refine ⟨by decide, by decide, by decide⟩

/-- C10.  `ReadOnlySegment::reset` leaves the segment unchanged: every `get`
returns the same result before and after `reset`, and `set` always fails with
the invalid-write error while leaving the data untouched. -/
theorem c10_readonly_reset_frame (s : ReadOnlySegment) (off v : Nat) :
    roGet (roReset s) off = roGet s off ∧
    (roSet s off v).1 = Except.error (SolariumError.InvalidMemoryWrite off) ∧
    (roSet s off v).2 = s ∧
    roReset s = s :=
  ⟨rfl, rfl, rfl, rfl⟩

/-- C8.  The serial I/O device's 4-word window: reading offset 0 yields the
pending-input count, offset 1 dequeues and yields the front input character
(0 when the input queue is empty), offset 2 yields the pending-output count,
offset 3 yields 0; writing offset 3 enqueues the low byte of the written word
on the output queue, and writing offsets 0, 1 or 2 fails with the
invalid-write error. -/
theorem c8_serial_io_window (d : SerialInputOutputDevice) (w : Nat)
    (hin : d.input_queue.length < 65536)
    (hout : d.output_queue.length < 65536)
    (hvals : ∀ v ∈ d.input_queue, v < 65536) :
    serialGet d d.base_address = .ok (d.input_queue.length, d) ∧
    (∀ v rest, d.input_queue = v :: rest →
      serialGet d (d.base_address + 1) = .ok (v, { d with input_queue := rest })) ∧
    (d.input_queue = [] → serialGet d (d.base_address + 1) = .ok (0, d)) ∧
    serialGet d (d.base_address + 2) = .ok (d.output_queue.length, d) ∧
    serialGet d (d.base_address + 3) = .ok (0, d) ∧
    serialSet d (d.base_address + 3) w =
      .ok { d with output_queue := d.output_queue ++ [w % 256] } ∧
    (∀ off, off < 3 →
      serialSet d (d.base_address + off) w =
        .error (.InvalidMemoryWrite (d.base_address + off))) := by
  refine ⟨?_, ?_, ?_, ?_, ?_, ?_, ?_⟩
  · unfold serialGet
    rw [if_neg (by unfold serialWithin; omega)]
    simp [Nat.sub_self, Nat.mod_eq_of_lt hin]
  · intro v rest hq
    unfold serialGet
    rw [if_neg (by unfold serialWithin; omega)]
    have h1 : d.base_address + 1 - d.base_address = 1 := by omega
    rw [h1]
    have hv : v < 65536 := hvals v (by rw [hq]; exact List.mem_cons_self _ _)
    simp [hq, Nat.mod_eq_of_lt hv]
  · intro hq
    unfold serialGet
    rw [if_neg (by unfold serialWithin; omega)]
    have h1 : d.base_address + 1 - d.base_address = 1 := by omega
    rw [h1]
    simp [hq]
  · unfold serialGet
    rw [if_neg (by unfold serialWithin; omega)]
    have h2 : d.base_address + 2 - d.base_address = 2 := by omega
    rw [h2]
    simp [Nat.mod_eq_of_lt hout]
  · unfold serialGet
    rw [if_neg (by unfold serialWithin; omega)]
    have h3 : d.base_address + 3 - d.base_address = 3 := by omega
    rw [h3]
    simp
  · unfold serialSet
    rw [if_neg (by unfold serialWithin; omega)]
    have h3 : d.base_address + 3 - d.base_address = 3 := by omega
    rw [h3]
    simp
  · intro off hoff
    unfold serialSet
    rw [if_neg (by unfold serialWithin; omega)]
    have h : d.base_address + off - d.base_address = off := by omega
    rw [h, if_neg (by omega)]

/-- C8 (witness).  The window contract evaluated on a concrete device at base
0x1000 with input queue `[65, 66]` and output queue `[67]`, writing 0x141. -/
theorem c8_serial_io_window_witness :
    serialGet witC8device 0x1000 = .ok (2, witC8device) ∧
    serialGet witC8device 0x1001 =
      .ok (65, { witC8device with input_queue := [66] }) ∧
    serialGet witC8device 0x1002 = .ok (1, witC8device) ∧
    serialGet witC8device 0x1003 = .ok (0, witC8device) ∧
    serialSet witC8device 0x1003 0x141 =
      .ok { witC8device with output_queue := [67, 0x41] } ∧
    serialSet witC8device 0x1001 0x141 =
      .error (.InvalidMemoryWrite 0x1001) := by
  obtain ⟨h0, h1, -, h2, h3, hs3, hsw⟩ :=
    c8_serial_io_window witC8device 0x141 (by decide) (by decide) (by decide)
  refine ⟨h0, ?_, h2, h3, hs3, ?_⟩
  · exact h1 65 [66] rfl
  · exact hsw 1 (by decide)

/-- C6.  For all register operand values, `add` (opcode 4) and `sub`
(opcode 5) always succeed and store their result reduced modulo 2^16 into the
destination register: `add` stores `(val_a + val_b) % 2^16` and `sub` stores
the two's-complement wrap of `val_a - val_b` (`val_a` from register arg1,
`val_b` from register arg0, destination arg2; the destination is taken
distinct from the PC so that the stored value is observable after the
step). -/
theorem c6_add_sub_wrap :
    (∀ (c : SolariumCPU) (a0 a1 a2 : Nat),
      a0 < 16 → a1 < 16 → a2 < 16 → a2 ≠ 0 →
      mappedAt c.memory_map (c.registers 0) →
      c.memory_map.contents (c.registers 0) = 0x4000 + a0 * 256 + a1 * 16 + a2 →
      (step c).1 = StepOutcome.ok ∧
      (step c).2.registers a2 = (c.registers a1 + c.registers a0) % 65536) ∧
    (∀ (c : SolariumCPU) (a0 a1 a2 : Nat),
      a0 < 16 → a1 < 16 → a2 < 16 → a2 ≠ 0 →
      mappedAt c.memory_map (c.registers 0) →
      c.memory_map.contents (c.registers 0) = 0x5000 + a0 * 256 + a1 * 16 + a2 →
      (step c).1 = StepOutcome.ok ∧
      (step c).2.registers a2 = toWord ((c.registers a1 : Int) - (c.registers a0 : Int))) := by
  constructor
  · intro c a0 a1 a2 ha0 ha1 ha2 ha2ne hmap hc
    have hop : (0x4000 + a0 * 256 + a1 * 16 + a2) / 4096 % 16 = 4 := by omega
    have hb0 : (0x4000 + a0 * 256 + a1 * 16 + a2) / 256 % 16 = a0 := by omega
    have hb1 : (0x4000 + a0 * 256 + a1 * 16 + a2) / 16 % 16 = a1 := by omega
    have hb2 : (0x4000 + a0 * 256 + a1 * 16 + a2) % 16 = a2 := by omega
    unfold step
    simp only [mmGet_of_mapped hmap, hc]
    unfold stepArm
    simp only [hop, hb0, hb1, hb2]
    norm_num [stepDispatch, armArith]
    unfold incrementPC setReg
    simp [Function.update_noteq ha2ne]
  · intro c a0 a1 a2 ha0 ha1 ha2 ha2ne hmap hc
    have hop : (0x5000 + a0 * 256 + a1 * 16 + a2) / 4096 % 16 = 5 := by omega
    have hb0 : (0x5000 + a0 * 256 + a1 * 16 + a2) / 256 % 16 = a0 := by omega
    have hb1 : (0x5000 + a0 * 256 + a1 * 16 + a2) / 16 % 16 = a1 := by omega
    have hb2 : (0x5000 + a0 * 256 + a1 * 16 + a2) % 16 = a2 := by omega
    unfold step
    simp only [mmGet_of_mapped hmap, hc]
    unfold stepArm
    simp only [hop, hb0, hb1, hb2]
    norm_num [stepDispatch, armArith]
    unfold incrementPC setReg
    simp [Function.update_noteq ha2ne]

/-- C6 (witness).  `add r5, r3, r4` with r3 = 0xFFFF, r4 = 1 stores 0x0000,
and `sub r5, r3, r4` with r3 = 0, r4 = 1 stores 0xFFFF. -/
theorem c6_add_sub_wrap_witness :
    ((step witC6addState).1 = StepOutcome.ok ∧
      (step witC6addState).2.registers 5 = 0) ∧
    ((step witC6subState).1 = StepOutcome.ok ∧
      (step witC6subState).2.registers 5 = 0xFFFF) := by
  obtain ⟨hadd, hsub⟩ := c6_add_sub_wrap
  obtain ⟨ha1, ha2⟩ := hadd witC6addState 4 3 5
    (by decide) (by decide) (by decide) (by decide) (by decide) (by decide)
  obtain ⟨hs1, hs2⟩ := hsub witC6subState 4 3 5
    (by decide) (by decide) (by decide) (by decide) (by decide) (by decide)
  exact ⟨⟨ha1, ha2.trans (by decide)⟩, ⟨hs1, hs2.trans (by decide)⟩⟩

/-- C7 (amended).  `div` (opcode 7) fails with divide-by-zero, and `mod`
(opcode 8) with mod-by-zero, exactly when the divisor register (arg0) holds
zero, in which case the state is unchanged; for every nonzero divisor other
than the overflowing pair dividend 0x8000 / divisor 0xFFFF the instruction
succeeds and stores the two's-complement truncated signed quotient
(respectively remainder) of the operands viewed as signed 16-bit values into
the destination register arg2 (taken distinct from the PC so that the stored
value is observable after the step). -/
theorem c7_div_mod :
    (∀ (c : SolariumCPU) (a0 a1 a2 : Nat),
      a0 < 16 → a1 < 16 → a2 < 16 → a2 ≠ 0 →
      mappedAt c.memory_map (c.registers 0) →
      c.memory_map.contents (c.registers 0) = 0x7000 + a0 * 256 + a1 * 16 + a2 →
      (c.registers a0 = 0 →
        step c = (StepOutcome.fault SolariumError.DivideByZero, c)) ∧
      (c.registers a0 ≠ 0 →
        ¬(toSigned16 (c.registers a1) = -32768 ∧ toSigned16 (c.registers a0) = -1) →
        (step c).1 = StepOutcome.ok ∧
        (step c).2.registers a2 =
          toWord (Int.tdiv (toSigned16 (c.registers a1)) (toSigned16 (c.registers a0))))) ∧
    (∀ (c : SolariumCPU) (a0 a1 a2 : Nat),
      a0 < 16 → a1 < 16 → a2 < 16 → a2 ≠ 0 →
      mappedAt c.memory_map (c.registers 0) →
      c.memory_map.contents (c.registers 0) = 0x8000 + a0 * 256 + a1 * 16 + a2 →
      (c.registers a0 = 0 →
        step c = (StepOutcome.fault SolariumError.ModByZero, c)) ∧
      (c.registers a0 ≠ 0 →
        ¬(toSigned16 (c.registers a1) = -32768 ∧ toSigned16 (c.registers a0) = -1) →
        (step c).1 = StepOutcome.ok ∧
        (step c).2.registers a2 =
          toWord (Int.tmod (toSigned16 (c.registers a1)) (toSigned16 (c.registers a0))))) := by
  constructor
  · intro c a0 a1 a2 ha0 ha1 ha2 ha2ne hmap hc
    have hop : (0x7000 + a0 * 256 + a1 * 16 + a2) / 4096 % 16 = 7 := by omega
    have hb0 : (0x7000 + a0 * 256 + a1 * 16 + a2) / 256 % 16 = a0 := by omega
    have hb1 : (0x7000 + a0 * 256 + a1 * 16 + a2) / 16 % 16 = a1 := by omega
    have hb2 : (0x7000 + a0 * 256 + a1 * 16 + a2) % 16 = a2 := by omega
    constructor
    · intro hz
      unfold step
      simp only [mmGet_of_mapped hmap, hc]
      unfold stepArm
      simp only [hop, hb0, hb1, hb2]
      norm_num [stepDispatch, armArith, hz]
    · intro hz hnov
      unfold step
      simp only [mmGet_of_mapped hmap, hc]
      unfold stepArm
      simp only [hop, hb0, hb1, hb2]
      norm_num [stepDispatch, armArith, hz, hnov]
      unfold incrementPC setReg
      simp [Function.update_noteq ha2ne]
  · intro c a0 a1 a2 ha0 ha1 ha2 ha2ne hmap hc
    have hop : (0x8000 + a0 * 256 + a1 * 16 + a2) / 4096 % 16 = 8 := by omega
    have hb0 : (0x8000 + a0 * 256 + a1 * 16 + a2) / 256 % 16 = a0 := by omega
    have hb1 : (0x8000 + a0 * 256 + a1 * 16 + a2) / 16 % 16 = a1 := by omega
    have hb2 : (0x8000 + a0 * 256 + a1 * 16 + a2) % 16 = a2 := by omega
    constructor
    · intro hz
      unfold step
      simp only [mmGet_of_mapped hmap, hc]
      unfold stepArm
      simp only [hop, hb0, hb1, hb2]
      norm_num [stepDispatch, armArith, hz]
    · intro hz hnov
      unfold step
      simp only [mmGet_of_mapped hmap, hc]
      unfold stepArm
      simp only [hop, hb0, hb1, hb2]
      norm_num [stepDispatch, armArith, hz, hnov]
      unfold incrementPC setReg
      simp [Function.update_noteq ha2ne]

/-- C7 (witness).  `div r5, r3, r4` with r3 = 6, r4 = 0xFFFE (-2) succeeds and
stores 65533 (-3); `mod r5, r3, r4` with r3 = 7, r4 = 3 stores 1; `div` with
divisor register 0 fails with divide-by-zero leaving the state unchanged. -/
theorem c7_div_mod_witness :
    ((step witC7divState).1 = StepOutcome.ok ∧
      (step witC7divState).2.registers 5 = 65533) ∧
    ((step witC7modState).1 = StepOutcome.ok ∧
      (step witC7modState).2.registers 5 = 1) ∧
    step witC7zeroState = (StepOutcome.fault SolariumError.DivideByZero, witC7zeroState) := by
  obtain ⟨hdiv, hmod⟩ := c7_div_mod
  obtain ⟨-, hdnz⟩ := hdiv witC7divState 4 3 5
    (by decide) (by decide) (by decide) (by decide) (by decide) (by decide)
  obtain ⟨h1, h2⟩ := hdnz (by decide) (by decide)
  obtain ⟨-, hmnz⟩ := hmod witC7modState 4 3 5
    (by decide) (by decide) (by decide) (by decide) (by decide) (by decide)
  obtain ⟨h3, h4⟩ := hmnz (by decide) (by decide)
  obtain ⟨hdz, -⟩ := hdiv witC7zeroState 4 3 5
    (by decide) (by decide) (by decide) (by decide) (by decide) (by decide)
  exact ⟨⟨h1, h2.trans (by decide)⟩, ⟨h3, h4.trans (by decide)⟩, hdz (by decide)⟩

theorem push_sp_snd_reg {c : SolariumCPU} {v i : Nat} (hi : i ≠ 1) :
    ((push_sp c v).2).registers i = c.registers i := by
  simp only [push_sp]
  split
  · rfl
  · split
    · simp [setReg, Function.update_noteq hi]
    · simp [setReg, Function.update_noteq hi]

theorem push_sp_fault {c c' : SolariumCPU} {v : Nat} {e : SolariumError}
    (h : push_sp c v = (some e, c')) : c'.registers 0 = c.registers 0 := by
  have h0 := push_sp_snd_reg (c := c) (v := v) (i := 0) (by omega)
  rw [h] at h0
  exact h0

theorem pushRegs_snd_reg {i : Nat} (hi : i ≠ 1) :
    ∀ (L : List Nat) (c : SolariumCPU),
      ((pushRegs c L).2).registers i = c.registers i := by
  intro L
  induction L with
  | nil => intro c; rfl
  | cons j rest ih =>
      intro c
      have hsub := push_sp_snd_reg (c := c) (v := c.registers j) hi
      unfold pushRegs
      cases hp : push_sp c (c.registers j) with
      | mk oe c' =>
        rw [hp] at hsub
        cases oe with
        | none => simpa [ih c'] using hsub
        | some e => simpa using hsub

theorem pushRegs_fault {c c' : SolariumCPU} {L : List Nat} {e : SolariumError}
    (h : pushRegs c L = (some e, c')) : c'.registers 0 = c.registers 0 := by
  have h0 := pushRegs_snd_reg (i := 0) (by omega) L c
  rw [h] at h0
  exact h0

theorem pop_sp_ok_snd_reg {c c' : SolariumCPU} {v i : Nat}
    (h : pop_sp c = .ok (v, c')) (hi : i ≠ 1) :
    c'.registers i = c.registers i := by
  unfold pop_sp at h
  cases hp : peek_sp c with
  | error e => rw [hp] at h; cases h
  | ok w =>
      rw [hp] at h
      cases h
      simp [setReg, Function.update_noteq hi]

theorem popRegs_snd_reg0 :
    ∀ (L : List Nat), (∀ j ∈ L, j < 15) →
      ∀ c : SolariumCPU, ((popRegs c L).2).registers 0 = c.registers 0 := by
  intro L
  induction L with
  | nil => intro _ c; rfl
  | cons j rest ih =>
      intro hL c
      unfold popRegs
      cases hp : pop_sp c with
      | error e => rfl
      | ok p =>
          obtain ⟨v, c'⟩ := p
          rw [ih (fun k hk => hL k (List.mem_cons_of_mem _ hk)) _]
          have hj : j < 15 := hL j (List.mem_cons_self _ _)
          have h15 : (0 : Nat) ≠ 15 - j := by omega
          rw [setReg]
          simp only [Function.update_noteq h15]
          exact pop_sp_ok_snd_reg hp (by omega)

theorem popRegs_append :
    ∀ (L1 L2 : List Nat) (c : SolariumCPU),
      popRegs c (L1 ++ L2) =
        match popRegs c L1 with
        | (none, c') => popRegs c' L2
        | (some e, c') => (some e, c') := by
  intro L1
  induction L1 with
  | nil => intro L2 c; rfl
  | cons j rest ih =>
      intro L2 c
      cases hp : pop_sp c with
      | error e =>
          show popRegs c (j :: (rest ++ L2)) = _
          simp only [popRegs, hp]
      | ok p =>
          obtain ⟨v, c'⟩ := p
          show popRegs c (j :: (rest ++ L2)) = _
          simp only [popRegs, hp]
          exact ih L2 (setReg c' (15 - j) v)

theorem popRegs_range16_fault {c c' : SolariumCPU} {e : SolariumError}
    (h : popRegs c (List.range 16) = (some e, c')) :
    c'.registers 0 = c.registers 0 := by
  have hr : List.range 16 = List.range 15 ++ [15] := by
    rw [List.range_succ]
  have hlt : ∀ j ∈ List.range 15, j < 15 := by
    intro j hj; exact List.mem_range.mp hj
  rw [hr, popRegs_append] at h
  cases h15 : popRegs c (List.range 15) with
  | mk oe c1 =>
    have h1 := popRegs_snd_reg0 (List.range 15) hlt c
    rw [h15] at h h1
    cases oe with
    | some e1 =>
        cases h
        exact h1
    | none =>
        simp only [popRegs] at h
        cases hp : pop_sp c1 with
        | error e2 =>
            rw [hp] at h
            cases h
            exact h1
        | ok p =>
            obtain ⟨v, c2⟩ := p
            rw [hp] at h
            cases h

theorem armTwoReg_fault_reg0 {c c2 : SolariumCPU} {pc inst a0 a1 a2 : Nat}
    {e : SolariumError} (h : armTwoReg c pc inst a0 a1 a2 = .fault e c2) :
    c2.registers 0 = c.registers 0 := by
  unfold armTwoReg at h
  repeat' split at h
  all_goals cases h
  all_goals rfl

theorem armOneReg_fault_reg0 {c c2 : SolariumCPU} {inst a1 a2 : Nat}
    {e : SolariumError} (h : armOneReg c inst a1 a2 = .fault e c2) :
    c2.registers 0 = c.registers 0 := by
  unfold armOneReg at h
  repeat' split at h
  all_goals cases h
  all_goals first
    | rfl
    | exact push_sp_fault (by assumption)
    | exact pushRegs_fault (by assumption)

theorem armZeroArg_fault_reg0 {c c2 : SolariumCPU} {inst a2 : Nat}
    {e : SolariumError} (h : armZeroArg c inst a2 = .fault e c2) :
    c2.registers 0 = c.registers 0 := by
  unfold armZeroArg at h
  repeat' split at h
  all_goals cases h
  all_goals first
    | rfl
    | exact popRegs_range16_fault (by assumption)

theorem armLdir_fault_reg0 {c c2 : SolariumCPU} {pc a0 a1 a2 : Nat}
    {e : SolariumError} (h : armLdir c pc a0 a1 a2 = .fault e c2) :
    c2.registers 0 = c.registers 0 := by
  unfold armLdir at h
  repeat' split at h
  all_goals cases h
  all_goals rfl

theorem armArith_fault_reg0 {c c2 : SolariumCPU} {inst op a0 a1 a2 : Nat}
    {e : SolariumError} (h : armArith c inst op a0 a1 a2 = .fault e c2) :
    c2.registers 0 = c.registers 0 := by
  unfold armArith at h
  repeat' split at h
  all_goals cases h
  all_goals rfl

theorem stepDispatch_fault_reg0 {c c2 : SolariumCPU}
    {pc inst opcode arg0 arg1 arg2 : Nat} {e : SolariumError}
    (h : stepDispatch c pc inst opcode arg0 arg1 arg2 = .fault e c2) :
    c2.registers 0 = c.registers 0 := by
  unfold stepDispatch at h
  repeat' split at h
  all_goals first
    | exact armTwoReg_fault_reg0 h
    | exact armOneReg_fault_reg0 h
    | exact armZeroArg_fault_reg0 h
    | exact armLdir_fault_reg0 h
    | exact armArith_fault_reg0 h
    | cases h

theorem stepArm_fault_reg0 {c c2 : SolariumCPU} {pc inst : Nat} {e : SolariumError}
    (h : stepArm c pc inst = .fault e c2) : c2.registers 0 = c.registers 0 := by
  unfold stepArm at h
  exact stepDispatch_fault_reg0 h

/-- Equation form of the PC-preservation on errors. -/
theorem step_fault_reg0 {c c' : SolariumCPU} {e : SolariumError}
    (h : step c = (StepOutcome.fault e, c')) : c'.registers 0 = c.registers 0 := by
  unfold step at h
  cases hm : mmGet c.memory_map (c.registers 0) with
  | error e2 =>
      rw [hm] at h
      cases h
      rfl
  | ok inst =>
      rw [hm] at h
      dsimp only at h
      cases ha : stepArm c (c.registers 0) inst with
      | go incr c2 => rw [ha] at h; cases h
      | panicked c2 => rw [ha] at h; cases h
      | fault e2 c2 =>
          rw [ha] at h
          cases h
          exact stepArm_fault_reg0 ha

/-- C1 (amended).  If `step()` returns an error, the program counter is
unchanged, so the caller's next `step()` refetches the same instruction word
at the same PC (even though destination writes of a failing multi-word
operation may already have partially occurred, see `c1_counterexample`). -/
theorem c1_error_pc_unchanged (c : SolariumCPU) (e : SolariumError)
    (h : (step c).1 = StepOutcome.fault e) :
    (step c).2.registers 0 = c.registers 0 := by
  have hs : step c = (StepOutcome.fault e, (step c).2) := by
    rw [← h]
  exact step_fault_reg0 hs

/-- C1 (witness).  The PC-preservation applied to a concrete failing step: an
`int` instruction, which always fails with interrupts-not-supported. -/
theorem c1_error_pc_unchanged_witness :
    (step witC1state).1 = StepOutcome.fault SolariumError.InterruptsNotSupported ∧
    (step witC1state).2.registers 0 = witC1state.registers 0 :=
  ⟨by decide,
    c1_error_pc_unchanged witC1state SolariumError.InterruptsNotSupported (by decide)⟩

theorem push_sp_ok_eq {c : SolariumCPU} {v : Nat}
    (hsp : c.registers 1 + 1 ≤ 0x1000)
    (hw : writableAt c.memory_map (STACK_POINTER_OFFSET + c.registers 1)) :
    push_sp c v = (none,
      { memory_map :=
          { regions := c.memory_map.regions,
            contents := Function.update c.memory_map.contents
              (STACK_POINTER_OFFSET + c.registers 1) v },
        registers := Function.update c.registers 1 (c.registers 1 + 1),
        allow_interrupts := c.allow_interrupts }) := by
  have hm : (c.registers 1 + 1) % 65536 = c.registers 1 + 1 :=
    Nat.mod_eq_of_lt (by omega)
  have haddr : STACK_POINTER_OFFSET + (c.registers 1 + 1) - 1 =
      STACK_POINTER_OFFSET + c.registers 1 := by
    unfold STACK_POINTER_OFFSET; omega
  simp only [push_sp, hm, setReg]
  rw [if_neg (by unfold STACK_POINTER_OFFSET STACK_POINTER_MAX_SIZE; omega)]
  rw [haddr, mmSet_of_writable v hw]

theorem pop_sp_ok_eq {c : SolariumCPU} {v : Nat}
    (hsp : c.registers 1 ≠ 0)
    (hget : mmGet c.memory_map (STACK_POINTER_OFFSET + c.registers 1 - 1) = .ok v) :
    pop_sp c = .ok (v, setReg c 1 (c.registers 1 - 1)) := by
  unfold pop_sp peek_sp
  rw [if_neg hsp, hget]

theorem pushRegs_tail :
    ∀ (L : List Nat) (c : SolariumCPU),
      (∀ j ∈ L, 2 ≤ j) →
      c.registers 1 + L.length ≤ 0x1000 →
      (∀ k, k < L.length →
        writableAt c.memory_map (STACK_POINTER_OFFSET + c.registers 1 + k)) →
      pushRegs c L = (none,
        { memory_map :=
            { regions := c.memory_map.regions,
              contents := writeSeq c.memory_map.contents
                (STACK_POINTER_OFFSET + c.registers 1) (L.map c.registers) },
          registers := Function.update c.registers 1 (c.registers 1 + L.length),
          allow_interrupts := c.allow_interrupts }) := by
  intro L
  induction L with
  | nil =>
      intro c _ _ _
      show (none, c) = _
      simp [writeSeq, Function.update_eq_self]
  | cons j rest ih =>
      intro c hL hsp hw
      have hj2 : 2 ≤ j := hL j (List.mem_cons_self _ _)
      show (match push_sp c (c.registers j) with
            | (none, c') => pushRegs c' rest
            | (some e, c') => (some e, c')) = _
      rw [push_sp_ok_eq (by simp at hsp; omega)
            (by have := hw 0 (by simp); simpa using this)]
      dsimp only
      have hrec := ih
        { memory_map :=
            { regions := c.memory_map.regions,
              contents := Function.update c.memory_map.contents
                (STACK_POINTER_OFFSET + c.registers 1) (c.registers j) },
          registers := Function.update c.registers 1 (c.registers 1 + 1),
          allow_interrupts := c.allow_interrupts }
        (fun i hi => hL i (List.mem_cons_of_mem _ hi))
        (by simp at hsp ⊢; omega)
        (by
          intro k hk
          show writableAt _ _
          have h2 := hw (k + 1) (by simp; omega)
          unfold writableAt at h2 ⊢
          simp only [Function.update_same]
          have haddr : STACK_POINTER_OFFSET + c.registers 1 + (k + 1) =
              STACK_POINTER_OFFSET + (c.registers 1 + 1) + k := by omega
          rw [haddr] at h2
          exact h2)
      rw [hrec]
      dsimp only
      simp only [Function.update_same, Function.update_idem, List.map_cons]
      have hmap : rest.map (Function.update c.registers 1 (c.registers 1 + 1)) =
          rest.map c.registers := by
        apply List.map_congr_left
        intro i hi
        have : 2 ≤ i := hL i (List.mem_cons_of_mem _ hi)
        exact Function.update_noteq (by omega) _ _
      rw [hmap]
      have hlen : c.registers 1 + 1 + rest.length = c.registers 1 + (rest.length + 1) := by
        omega
      rw [hlen]
      rfl

theorem popRegs_head :
    ∀ (L : List Nat) (c : SolariumCPU) (b : Nat),
      (∀ j ∈ L, j ≤ 13) →
      c.registers 1 = b + L.length →
      (∀ k, k < L.length → mappedAt c.memory_map (STACK_POINTER_OFFSET + b + k)) →
      popRegs c L = (none,
        { memory_map := c.memory_map,
          registers := retWrites c.memory_map.contents b c.registers L,
          allow_interrupts := c.allow_interrupts }) := by
  intro L
  induction L with
  | nil =>
      intro c b _ _ _
      show (none, c) = _
      rfl
  | cons j rest ih =>
      intro c b hL hsp hm
      have hj : j ≤ 13 := hL j (List.mem_cons_self _ _)
      show (match pop_sp c with
            | .ok (v, c') => popRegs (setReg c' (15 - j) v) rest
            | .error e => (some e, c)) = _
      have haddr : STACK_POINTER_OFFSET + c.registers 1 - 1 =
          STACK_POINTER_OFFSET + b + rest.length := by
        unfold STACK_POINTER_OFFSET
        simp at hsp
        omega
      have hget : mmGet c.memory_map (STACK_POINTER_OFFSET + c.registers 1 - 1) =
          .ok (c.memory_map.contents (STACK_POINTER_OFFSET + b + rest.length)) := by
        rw [haddr]
        exact mmGet_of_mapped (hm rest.length (by simp))
      rw [pop_sp_ok_eq (by simp at hsp; omega) hget]
      dsimp only
      have hsub : c.registers 1 - 1 = b + rest.length := by
        simp at hsp; omega
      rw [hsub]
      have hrec := ih
        (setReg (setReg c 1 (b + rest.length)) (15 - j)
          (c.memory_map.contents (STACK_POINTER_OFFSET + b + rest.length)))
        b
        (fun i hi => hL i (List.mem_cons_of_mem _ hi))
        (by
          simp only [setReg]
          rw [Function.update_noteq (by omega : (1 : Nat) ≠ 15 - j)]
          rw [Function.update_same])
        (by
          intro k hk
          exact hm k (by simp; omega))
      rw [hrec]
      dsimp only [setReg]
      rfl

theorem pushRegs_range16 (c : SolariumCPU)
    (hsp : c.registers 1 + 16 ≤ 0x1000)
    (hw : ∀ k, k < 16 →
      writableAt c.memory_map (STACK_POINTER_OFFSET + c.registers 1 + k)) :
    pushRegs c (List.range 16) = (none,
      { memory_map :=
          { regions := c.memory_map.regions,
            contents := writeSeq c.memory_map.contents
              (STACK_POINTER_OFFSET + c.registers 1)
              (c.registers 0 :: (c.registers 1 + 1) ::
                [c.registers 2, c.registers 3, c.registers 4, c.registers 5,
                 c.registers 6, c.registers 7, c.registers 8, c.registers 9,
                 c.registers 10, c.registers 11, c.registers 12, c.registers 13,
                 c.registers 14, c.registers 15]) },
        registers := Function.update c.registers 1 (c.registers 1 + 16),
        allow_interrupts := c.allow_interrupts }) := by
  have hr : List.range 16 = 0 :: 1 :: [2,3,4,5,6,7,8,9,10,11,12,13,14,15] := rfl
  rw [hr]
  show (match push_sp c (c.registers 0) with
        | (none, c') => pushRegs c' (1 :: [2,3,4,5,6,7,8,9,10,11,12,13,14,15])
        | (some e, c') => (some e, c')) = _
  rw [push_sp_ok_eq (by omega) (by simpa using hw 0 (by omega))]
  dsimp only
  show (match push_sp _ (Function.update c.registers 1 (c.registers 1 + 1) 1) with
        | (none, c') => pushRegs c' [2,3,4,5,6,7,8,9,10,11,12,13,14,15]
        | (some e, c') => (some e, c')) = _
  rw [push_sp_ok_eq
        (by simp only [Function.update_same]; omega)
        (by
          simp only [Function.update_same]
          have h1 := hw 1 (by omega)
          unfold writableAt at h1 ⊢
          have : STACK_POINTER_OFFSET + c.registers 1 + 1 =
              STACK_POINTER_OFFSET + (c.registers 1 + 1) := by omega
          rw [this] at h1
          exact h1)]
  dsimp only
  simp only [Function.update_same, Function.update_idem]
  rw [pushRegs_tail [2,3,4,5,6,7,8,9,10,11,12,13,14,15] _
        (by intro j hj; fin_cases hj <;> omega)
        (by simp only [Function.update_same, List.length_cons, List.length_nil]; omega)
        (by
          intro k hk
          simp only [Function.update_same]
          unfold writableAt
          have h2 := hw (k + 2) (by simp at hk; omega)
          unfold writableAt at h2
          have : STACK_POINTER_OFFSET + c.registers 1 + (k + 2) =
              STACK_POINTER_OFFSET + (c.registers 1 + 1 + 1) + k := by omega
          rw [this] at h2
          exact h2)]
  dsimp only
  simp only [Function.update_same, Function.update_idem, List.map_cons, List.map_nil]
  have hlen : c.registers 1 + 1 + 1 + 14 = c.registers 1 + 16 := by omega
  rw [hlen]
  have hupd : ∀ k : Nat, k ≠ 1 →
      Function.update c.registers 1 (c.registers 1 + 1 + 1) k = c.registers k := by
    intro k hk
    exact Function.update_noteq hk _ _
  rw [hupd 2 (by omega), hupd 3 (by omega), hupd 4 (by omega), hupd 5 (by omega),
      hupd 6 (by omega), hupd 7 (by omega), hupd 8 (by omega), hupd 9 (by omega),
      hupd 10 (by omega), hupd 11 (by omega), hupd 12 (by omega), hupd 13 (by omega),
      hupd 14 (by omega), hupd 15 (by omega)]
  have haddr2 : STACK_POINTER_OFFSET + (c.registers 1 + 1 + 1) =
      STACK_POINTER_OFFSET + c.registers 1 + 2 := by omega
  rw [haddr2]
  rfl

theorem retWrites_reg1 :
    ∀ (L : List Nat), L ≠ [] → (∀ i ∈ L, 15 - i ≠ 1) →
      ∀ (m regs : Nat → Nat) (b : Nat), retWrites m b regs L 1 = b := by
  intro L
  induction L with
  | nil => intro h; cases h rfl
  | cons j rest ih =>
      intro _ hi m regs b
      show retWrites m b
        (Function.update (Function.update regs 1 (b + rest.length)) (15 - j)
          (m (STACK_POINTER_OFFSET + b + rest.length))) rest 1 = b
      cases rest with
      | nil =>
          show Function.update (Function.update regs 1 (b + 0)) (15 - j) _ 1 = b
          rw [Function.update_noteq
                (fun h => hi j (List.mem_cons_self _ _) h.symm),
              Function.update_same]
          simp
      | cons j2 rest2 =>
          exact ih (by simp) (fun i h => hi i (List.mem_cons_of_mem _ h)) m _ b

theorem popRegs_range16 (c : SolariumCPU) (b : Nat)
    (hsp : c.registers 1 = b + 16)
    (hv1 : c.memory_map.contents (STACK_POINTER_OFFSET + b + 1) = b + 1)
    (hm : ∀ k, k < 16 → mappedAt c.memory_map (STACK_POINTER_OFFSET + b + k)) :
    popRegs c (List.range 16) = (none,
      { memory_map := c.memory_map,
        registers :=
          Function.update
            (Function.update
              (retWrites c.memory_map.contents (b + 2) c.registers
                [0,1,2,3,4,5,6,7,8,9,10,11,12,13]) 1 b)
            0 (c.memory_map.contents (STACK_POINTER_OFFSET + b)),
        allow_interrupts := c.allow_interrupts }) := by
  have hr : List.range 16 = [0,1,2,3,4,5,6,7,8,9,10,11,12,13] ++ [14, 15] := rfl
  rw [hr, popRegs_append]
  rw [popRegs_head [0,1,2,3,4,5,6,7,8,9,10,11,12,13] c (b + 2)
        (by intro j hj; fin_cases hj <;> omega)
        (by simp only [List.length_cons, List.length_nil]; omega)
        (by
          intro k hk
          simp only [List.length_cons, List.length_nil] at hk
          have := hm (k + 2) (by omega)
          have haddr : STACK_POINTER_OFFSET + b + (k + 2) =
              STACK_POINTER_OFFSET + (b + 2) + k := by omega
          rw [haddr] at this
          exact this)]
  dsimp only
  have hone : retWrites c.memory_map.contents (b + 2) c.registers
      [0,1,2,3,4,5,6,7,8,9,10,11,12,13] 1 = b + 2 :=
    retWrites_reg1 _ (by simp) (by intro i hi; fin_cases hi <;> omega) _ _ _
  -- stage 14: pop into register 1
  show (match pop_sp _ with
        | .ok (v, c') => popRegs (setReg c' (15 - 14) v) [15]
        | .error e => (some e, _)) = _
  rw [pop_sp_ok_eq (by dsimp only; rw [hone]; omega)
        (by
          dsimp only
          rw [hone]
          have haddr : STACK_POINTER_OFFSET + (b + 2) - 1 =
              STACK_POINTER_OFFSET + b + 1 := by
            unfold STACK_POINTER_OFFSET; omega
          rw [haddr]
          exact mmGet_of_mapped (hm 1 (by omega)))]
  dsimp only [setReg]
  rw [hone]
  have hsub1 : b + 2 - 1 = b + 1 := by omega
  rw [hsub1, hv1]
  simp only [Function.update_idem]
  -- stage 15: pop into register 0
  show (match pop_sp _ with
        | .ok (v, c') => popRegs (setReg c' (15 - 15) v) []
        | .error e => (some e, _)) = _
  rw [pop_sp_ok_eq
        (by dsimp only; simp only [Function.update_same]; omega)
        (by
          dsimp only
          simp only [Function.update_same]
          have haddr : STACK_POINTER_OFFSET + (b + 1) - 1 =
              STACK_POINTER_OFFSET + b := by
            unfold STACK_POINTER_OFFSET; omega
          rw [haddr]
          exact mmGet_of_mapped (hm 0 (by omega)))]
  dsimp only [setReg]
  simp only [Function.update_same]
  have hsub2 : b + 1 - 1 = b := by omega
  rw [hsub2]
  simp only [Function.update_idem]
  rfl

theorem c5_stage_a
    (mm : MemoryMap) (r : Nat → Nat) (ai : Bool) (d s p t : Nat)
    (hd3 : 3 ≤ d) (hd15 : d ≤ 15)
    (hbound : ∀ i, r i < 65536)
    (hp : r 0 = p) (hs : r 1 = s) (ht : r d = t)
    (hroom : s + 16 ≤ 0x1000)
    (hmp : mappedAt mm p) (hcall : mm.contents p = 0x50 + d)
    (hw : ∀ k, k < 16 → writableAt mm (STACK_POINTER_OFFSET + s + k)) :
    step (⟨mm, r, ai⟩ : SolariumCPU) = (StepOutcome.ok,
      { memory_map :=
          { regions := mm.regions,
            contents := writeSeq mm.contents (STACK_POINTER_OFFSET + s)
              (p :: (s + 1) :: [r 2, r 3, r 4, r 5, r 6, r 7, r 8, r 9,
                r 10, r 11, r 12, r 13, r 14, r 15]) },
        registers := Function.update (Function.update r 1 (s + 16)) 0 t,
        allow_interrupts := ai }) := by
  have hfetch1 : mmGet mm (r 0) = Except.ok (0x50 + d) := by
    rw [hp, mmGet_of_mapped hmp, hcall]
  have hn0 : (0x50 + d) / 4096 % 16 = 0 := by omega
  have hn1 : (0x50 + d) / 256 % 16 = 0 := by omega
  have hn2 : (0x50 + d) / 16 % 16 = 5 := by omega
  have hn3 : (0x50 + d) % 16 = d := by omega
  unfold step
  show (match mmGet mm (r 0) with
        | .error e => (StepOutcome.fault e, (⟨mm, r, ai⟩ : SolariumCPU))
        | .ok inst =>
            match stepArm (⟨mm, r, ai⟩ : SolariumCPU) (r 0) inst with
            | .go pc_incr c' => (StepOutcome.ok, incrementPC c' pc_incr)
            | .fault e c' => (StepOutcome.fault e, c')
            | .panicked c' => (StepOutcome.panicked, c')) = _
  rw [hfetch1]
  dsimp only
  unfold stepArm
  rw [hn0, hn1, hn2, hn3]
  unfold stepDispatch
  norm_num
  unfold armOneReg
  norm_num
  rw [pushRegs_range16 _ (by dsimp only; rw [hs]; omega)
        (by intro k hk; dsimp only; rw [hs]; exact hw k hk)]
  dsimp only
  rw [Function.update_noteq (by omega : d ≠ 1), ht]
  unfold incrementPC setReg
  dsimp only
  simp only [Function.update_same, Function.update_idem]
  have htw : toWord ((t : Int) + 0) = t := by
    unfold toWord
    have := hbound d
    rw [ht] at this
    omega
  rw [htw, hs, hp]

theorem c5_stage_b
    (mm : MemoryMap) (r : Nat → Nat) (ai : Bool) (s p t : Nat)
    (hbound : ∀ i, r i < 65536)
    (hroom : s + 16 ≤ 0x1000)
    (hp1 : p + 1 < 65536)
    (hmt : mappedAt mm t) (hret : mm.contents t = 5)
    (htout : t < STACK_POINTER_OFFSET + s ∨ STACK_POINTER_OFFSET + s + 16 ≤ t)
    (hw : ∀ k, k < 16 → writableAt mm (STACK_POINTER_OFFSET + s + k)) :
    step ({ memory_map :=
              { regions := mm.regions,
                contents := writeSeq mm.contents (STACK_POINTER_OFFSET + s)
                  (p :: (s + 1) :: [r 2, r 3, r 4, r 5, r 6, r 7, r 8, r 9,
                    r 10, r 11, r 12, r 13, r 14, r 15]) },
            registers := Function.update (Function.update r 1 (s + 16)) 0 t,
            allow_interrupts := ai } : SolariumCPU) = (StepOutcome.ok,
      { memory_map :=
          { regions := mm.regions,
            contents := writeSeq mm.contents (STACK_POINTER_OFFSET + s)
              (p :: (s + 1) :: [r 2, r 3, r 4, r 5, r 6, r 7, r 8, r 9,
                r 10, r 11, r 12, r 13, r 14, r 15]) },
        registers :=
          Function.update
            (Function.update
              (retWrites
                (writeSeq mm.contents (STACK_POINTER_OFFSET + s)
                  (p :: (s + 1) :: [r 2, r 3, r 4, r 5, r 6, r 7, r 8, r 9,
                    r 10, r 11, r 12, r 13, r 14, r 15]))
                (s + 2)
                (Function.update (Function.update r 1 (s + 16)) 0 t)
                [0,1,2,3,4,5,6,7,8,9,10,11,12,13]) 1 s)
            0 (p + 1),
        allow_interrupts := ai }) := by
  have hlen : (p :: (s + 1) :: [r 2, r 3, r 4, r 5, r 6, r 7, r 8, r 9,
      r 10, r 11, r 12, r 13, r 14, r 15]).length = 16 := by simp
  have hW : ∀ x, (x < STACK_POINTER_OFFSET + s ∨ STACK_POINTER_OFFSET + s + 16 ≤ x) →
      writeSeq mm.contents (STACK_POINTER_OFFSET + s)
        (p :: (s + 1) :: [r 2, r 3, r 4, r 5, r 6, r 7, r 8, r 9,
          r 10, r 11, r 12, r 13, r 14, r 15]) x = mm.contents x := by
    intro x hx
    exact writeSeq_outside (by rw [hlen]; exact hx)
  have hfetch2 : mmGet
      ({ regions := mm.regions,
         contents := writeSeq mm.contents (STACK_POINTER_OFFSET + s)
           (p :: (s + 1) :: [r 2, r 3, r 4, r 5, r 6, r 7, r 8, r 9,
             r 10, r 11, r 12, r 13, r 14, r 15]) } : MemoryMap) t =
      Except.ok 5 := by
    unfold mmGet
    dsimp only
    cases hf : findRegion mm.regions t with
    | none =>
        unfold mappedAt at hmt
        rw [hf] at hmt
        simp at hmt
    | some rg =>
        dsimp only
        rw [hW t htout, hret]
  have hreg0 : (Function.update (Function.update r 1 (s + 16)) 0 t) 0 = t :=
    Function.update_same _ _ _
  unfold step
  dsimp only
  rw [hreg0, hfetch2]
  dsimp only
  unfold stepArm
  norm_num
  unfold stepDispatch
  norm_num
  unfold armZeroArg
  norm_num
  rw [popRegs_range16 _ s
        (by
          dsimp only
          rw [Function.update_noteq (by omega : (1 : Nat) ≠ 0), Function.update_same])
        (by
          dsimp only
          have h1 := @writeSeq_get (p :: (s + 1) :: [r 2, r 3, r 4, r 5, r 6,
              r 7, r 8, r 9, r 10, r 11, r 12, r 13, r 14, r 15])
            mm.contents (STACK_POINTER_OFFSET + s) 1
            (by rw [hlen]; omega)
          simpa using h1)
        (by
          intro k hk
          exact (hw k hk).mapped)]
  dsimp only
  have hW0 : writeSeq mm.contents (STACK_POINTER_OFFSET + s)
      (p :: (s + 1) :: [r 2, r 3, r 4, r 5, r 6, r 7, r 8, r 9,
        r 10, r 11, r 12, r 13, r 14, r 15]) (STACK_POINTER_OFFSET + s) = p := by
    have h0 := @writeSeq_get (p :: (s + 1) :: [r 2, r 3, r 4, r 5, r 6,
        r 7, r 8, r 9, r 10, r 11, r 12, r 13, r 14, r 15])
      mm.contents (STACK_POINTER_OFFSET + s) 0
      (by rw [hlen]; omega)
    simpa using h0
  rw [hW0]
  unfold incrementPC setReg
  dsimp only
  simp only [Function.update_same, Function.update_idem]
  have htw : toWord ((p : Int) + 1) = p + 1 := by
    unfold toWord
    omega
  rw [htw]

/-- C5.  Call/ret symmetry: from any starting state whose registers hold
16-bit values, with stack headroom (`SP + 16` within the code's accepted
bound) over writable stack cells, executing `call` on a general-purpose
target register `d` whose value `t` addresses a `ret` instruction outside the
touched stack cells, the two steps both succeed, every register of index
2..15 is restored bitwise to its pre-call value, the stack pointer returns to
its pre-call value, and the PC ends at the pre-call PC plus 1 (the call
pushes the sixteen registers in index order; ret pops them back in reverse
index order). -/
theorem c5_call_ret_symmetry
    (mm : MemoryMap) (r : Nat → Nat) (ai : Bool) (d s p t : Nat)
    (hd3 : 3 ≤ d) (hd15 : d ≤ 15)
    (hbound : ∀ i, r i < 65536)
    (hp : r 0 = p) (hs : r 1 = s) (ht : r d = t)
    (hroom : s + 16 ≤ 0x1000)
    (hp1 : p + 1 < 65536)
    (hmp : mappedAt mm p) (hcall : mm.contents p = 0x50 + d)
    (hmt : mappedAt mm t) (hret : mm.contents t = 5)
    (htout : t < STACK_POINTER_OFFSET + s ∨ STACK_POINTER_OFFSET + s + 16 ≤ t)
    (hw : ∀ k, k < 16 → writableAt mm (STACK_POINTER_OFFSET + s + k)) :
    (step (⟨mm, r, ai⟩ : SolariumCPU)).1 = StepOutcome.ok ∧
    (step (step (⟨mm, r, ai⟩ : SolariumCPU)).2).1 = StepOutcome.ok ∧
    (∀ i, 2 ≤ i → i ≤ 15 →
      (step (step (⟨mm, r, ai⟩ : SolariumCPU)).2).2.registers i = r i) ∧
    (step (step (⟨mm, r, ai⟩ : SolariumCPU)).2).2.registers 0 = p + 1 ∧
    (step (step (⟨mm, r, ai⟩ : SolariumCPU)).2).2.registers 1 = s := by
  have hA := c5_stage_a mm r ai d s p t hd3 hd15 hbound hp hs ht hroom hmp hcall hw
  have hB := c5_stage_b mm r ai s p t hbound hroom hp1 hmt hret htout hw
  rw [hA]
  dsimp only
  rw [hB]
  dsimp only
  have hlen : (p :: (s + 1) :: [r 2, r 3, r 4, r 5, r 6, r 7, r 8, r 9,
      r 10, r 11, r 12, r 13, r 14, r 15]).length = 16 := by simp
  have hWk : ∀ k, k < 16 →
      writeSeq mm.contents (STACK_POINTER_OFFSET + s)
        (p :: (s + 1) :: [r 2, r 3, r 4, r 5, r 6, r 7, r 8, r 9,
          r 10, r 11, r 12, r 13, r 14, r 15]) (STACK_POINTER_OFFSET + s + k) =
      (p :: (s + 1) :: [r 2, r 3, r 4, r 5, r 6, r 7, r 8, r 9,
          r 10, r 11, r 12, r 13, r 14, r 15]).getD k 0 := by
    intro k hk
    exact writeSeq_get (by rw [hlen]; omega)
  have hWk' : ∀ k, k < 14 →
      writeSeq mm.contents (STACK_POINTER_OFFSET + s)
        (p :: (s + 1) :: [r 2, r 3, r 4, r 5, r 6, r 7, r 8, r 9,
          r 10, r 11, r 12, r 13, r 14, r 15]) (STACK_POINTER_OFFSET + (s + 2) + k) =
      (p :: (s + 1) :: [r 2, r 3, r 4, r 5, r 6, r 7, r 8, r 9,
          r 10, r 11, r 12, r 13, r 14, r 15]).getD (k + 2) 0 := by
    intro k hk
    have haddr : STACK_POINTER_OFFSET + (s + 2) + k = STACK_POINTER_OFFSET + s + (k + 2) := by
      omega
    rw [haddr]
    exact hWk (k + 2) (by omega)
  have hW2 : writeSeq mm.contents (STACK_POINTER_OFFSET + s)
      (p :: (s + 1) :: [r 2, r 3, r 4, r 5, r 6, r 7, r 8, r 9,
        r 10, r 11, r 12, r 13, r 14, r 15]) (STACK_POINTER_OFFSET + (s + 2)) = r 2 := by
    have haddr : STACK_POINTER_OFFSET + (s + 2) = STACK_POINTER_OFFSET + s + 2 := by omega
    rw [haddr]
    exact hWk 2 (by omega)
  refine ⟨rfl, rfl, ?_, ?_, ?_⟩
  · intro i h2 h15
    rw [Function.update_noteq (by omega : i ≠ 0),
        Function.update_noteq (by omega : i ≠ 1)]
    simp only [retWrites, List.length_cons, List.length_nil]
    norm_num
    simp only [hWk' 0 (by omega), hWk' 1 (by omega), hWk' 2 (by omega),
      hWk' 3 (by omega), hWk' 4 (by omega), hWk' 5 (by omega), hWk' 6 (by omega),
      hWk' 7 (by omega), hWk' 8 (by omega), hWk' 9 (by omega), hWk' 10 (by omega),
      hWk' 11 (by omega), hWk' 12 (by omega), hWk' 13 (by omega), hW2]
    interval_cases i <;> simp [Function.update_apply]
  · rw [Function.update_same]
  · rw [Function.update_noteq (by omega : (1 : Nat) ≠ 0), Function.update_same]

/-- C5 (witness).  The symmetry applied to a concrete machine: `call r3` at
PC 0 with r3 = 0x50, a `ret` at 0x50, SP = 0, the other GP registers holding
7, and a read-write segment `[0, 0x2000)`: both steps succeed, registers 3
and 7 are restored, PC ends at 1 and SP back at 0. -/
theorem c5_call_ret_symmetry_witness :
    (step witC5state).1 = StepOutcome.ok ∧
    (step (step witC5state).2).1 = StepOutcome.ok ∧
    (step (step witC5state).2).2.registers 7 = 7 ∧
    (step (step witC5state).2).2.registers 3 = 0x50 ∧
    (step (step witC5state).2).2.registers 0 = 1 ∧
    (step (step witC5state).2).2.registers 1 = 0 := by
  obtain ⟨h1, h2, hgp, h0, hsp⟩ :=
    c5_call_ret_symmetry
      (flatRW fun a => if a = 0 then 0x0053 else if a = 0x50 then 5 else 0)
      (fun i => if i = 0 then 0 else if i = 1 then 0 else if i = 3 then 0x50 else 7)
      true 3 0 0 0x50
      (by decide) (by decide)
      (by intro i; dsimp only; split_ifs <;> norm_num)
      rfl rfl rfl
      (by decide) (by decide)
      (by decide) (by decide)
      (by decide) (by decide)
      (by decide)
      (by
        intro k hk
        refine ⟨⟨0, 0x2000, false⟩, ?_, rfl⟩
        unfold findRegion flatRW
        dsimp only
        rw [List.find?_cons_of_pos]
        simp only [decide_eq_true_eq, Bool.and_eq_true]
        unfold STACK_POINTER_OFFSET
        refine ⟨by simp, by simp; omega⟩)
  exact ⟨h1, h2, (hgp 7 (by decide) (by decide)).trans (by decide),
    (hgp 3 (by decide) (by decide)).trans (by decide), h0, hsp⟩
